import Mathlib

/-!
Shallow embedding of the resilience primitives of the bookings service:
the circuit breaker (`src/bookings_service/circuit_breaker.py`) and the
fixed-window in-memory rate limiter (`src/bookings_service/rate_limiter.py`).

Time (Python `time.time()`) is modelled as a rational number passed
explicitly to each call.  The wrapped operation of a guarded call is
modelled by its outcome: a success carrying a result, a failure matching
the breaker's `expected_exception` (a classified failure), or any other
failure (unclassified).  Python exceptions become explicit result
constructors; `int()` truncation on a non-negative rational is the floor.
-/

namespace Srms

/-- Breaker states, mirroring the string states "CLOSED" | "OPEN" | "HALF_OPEN". -/
inductive BState where
  | CLOSED
  | OPEN
  | HALF_OPEN
deriving DecidableEq, Repr

/-- The mutable fields of `CircuitBreaker.__init__` together with its
configuration (`name`, `failure_threshold`, `recovery_timeout`).  The
`expected_exception` classifier is represented by the outcome type below. -/
structure CircuitBreaker where
  name : String
  failure_threshold : ℕ
  recovery_timeout : ℚ
  state : BState
  failure_count : ℕ
  last_failure_time : Option ℚ
deriving DecidableEq, Repr

/-- `CircuitBreaker.__init__`: state CLOSED, failure count 0, no last failure time. -/
def CircuitBreaker.init (name : String) (failure_threshold : ℕ)
    (recovery_timeout : ℚ) : CircuitBreaker :=
  { name := name
    failure_threshold := failure_threshold
    recovery_timeout := recovery_timeout
    state := BState.CLOSED
    failure_count := 0
    last_failure_time := none }

/-- Outcome of invoking the wrapped function once: it returns a value,
raises the breaker's `expected_exception` (classified), or raises some
other exception (unclassified). -/
inductive Outcome (α : Type) where
  | success (v : α)
  | classifiedFailure
  | unclassifiedFailure
deriving DecidableEq, Repr

/-- Python `int()` on a rational: truncation toward zero. -/
def pyInt (x : ℚ) : ℤ :=
  if 0 ≤ x then ⌊x⌋ else ⌈x⌉

/-- What a guarded call returns to its caller: the wrapped function's
result, a `ServiceUnavailable` error whose message carries the breaker's
name and `int()` of the remaining cooldown (line 63), the re-raised
classified exception, the propagated unclassified exception, or a failed
`assert`. -/
inductive ExecOutcome (α : Type) where
  | result (v : α)
  | serviceUnavailable (name : String) (retry_after : ℤ)
  | classifiedError
  | unclassifiedError
  | assertionError
deriving DecidableEq, Repr

/-- The `try/except/else` block of the wrapper (lines 68-86): invoked once the
OPEN fast-fail check has been passed.  The boolean records that the wrapped
function was invoked. -/
def invokeOp (b : CircuitBreaker) (now : ℚ) (op : Outcome α) :
    CircuitBreaker × ExecOutcome α × Bool :=
  match op with
  | Outcome.success v =>
      ({ b with state := BState.CLOSED, failure_count := 0, last_failure_time := none },
       ExecOutcome.result v, true)
  | Outcome.classifiedFailure =>
      let count := b.failure_count + 1
      let st := if b.failure_threshold ≤ count then BState.OPEN else b.state
      ({ b with state := st, failure_count := count, last_failure_time := some now },
       ExecOutcome.classifiedError, true)
  | Outcome.unclassifiedFailure =>
      (b, ExecOutcome.unclassifiedError, true)

/-- One guarded call (`wrapper`, lines 53-86): reads `now`, fast-fails when
OPEN and inside the cooldown, otherwise moves to HALF_OPEN when the cooldown
has elapsed, then invokes the wrapped function.  Returns the updated breaker,
the caller-visible outcome, and whether the wrapped function was invoked. -/
def execute (b : CircuitBreaker) (now : ℚ) (op : Outcome α) :
    CircuitBreaker × ExecOutcome α × Bool :=
  match b.state with
  | BState.OPEN =>
      match b.last_failure_time with
      | none => (b, ExecOutcome.assertionError, false)
      | some lft =>
          if now - lft < b.recovery_timeout then
            (b, ExecOutcome.serviceUnavailable b.name
              (pyInt (b.recovery_timeout - (now - lft))),
             false)
          else
            invokeOp { b with state := BState.HALF_OPEN } now op
  | _ => invokeOp b now op

/-- Breaker states reachable from a freshly constructed breaker by any
sequence of guarded calls, at arbitrary times and with arbitrary outcomes. -/
inductive Reachable : CircuitBreaker → Prop where
  | init (name : String) (ft : ℕ) (rt : ℚ) :
      Reachable (CircuitBreaker.init name ft rt)
  | step {α : Type} {b : CircuitBreaker} (now : ℚ) (op : Outcome α) :
      Reachable b → Reachable (execute b now op).1

/-- The breaker invariant: outside CLOSED, `last_failure_time` is set and the
failure count has reached the threshold. -/
def BreakerInv (b : CircuitBreaker) : Prop :=
  b.state ≠ BState.CLOSED →
    (∃ t, b.last_failure_time = some t) ∧ b.failure_threshold ≤ b.failure_count

/-- Folding a streak of classified failures through the breaker, one guarded
call per listed time. -/
def failStreak (b : CircuitBreaker) : List ℚ → CircuitBreaker
  | [] => b
  | t :: ts => failStreak (execute b t (Outcome.classifiedFailure : Outcome Unit)).1 ts

/-- The per-key table `self._store` of `InMemoryRateLimiter`: a Python dict
mapping a caller key to a `[window_start_time, call_count]` pair. -/
def Store : Type := String → Option (ℚ × ℕ)

/-- Python `self._store[key] = v`. -/
def Store.set (s : Store) (key : String) (v : ℚ × ℕ) : Store :=
  fun k => if k = key then some v else s k

/-- `InMemoryRateLimiter.__init__`: configuration `calls` and `period`
together with the per-key store. -/
structure InMemoryRateLimiter where
  calls : ℕ
  period : ℚ
  store : Store

/-- `InMemoryRateLimiter.is_allowed` (lines 25-39): look the key up
(defaulting to `[now, 0]`), reset the window when a full period has elapsed,
then either reject with a retry hint, or admit and count the call.  Returns
the updated limiter together with the `(allowed, retry_after)` pair. -/
def is_allowed (rl : InMemoryRateLimiter) (now : ℚ) (key : String) :
    InMemoryRateLimiter × Bool × Option ℚ :=
  let wc0 := (rl.store key).getD (now, 0)
  let wc := if rl.period ≤ now - wc0.1 then (now, 0) else wc0
  if rl.calls ≤ wc.2 then
    ({ rl with store := rl.store.set key wc },
     false, some (max 0 (rl.period - (now - wc.1))))
  else
    ({ rl with store := rl.store.set key (wc.1, wc.2 + 1) }, true, none)

/-- What the `rate_limit` wrapper hands back to Flask: either the guarded
view function's own return value, or the 429 rejection response with its
body message, status code and `Retry-After` header value. -/
inductive RlResult (α : Type) where
  | ok (v : α)
  | limited (message : String) (status_code : ℕ) (retry_after_header : ℤ)
deriving DecidableEq, Repr

/-- The `rate_limit(...)` wrapper (lines 50-66): consults the limiter with
the client key; on rejection builds the 429 response whose body and
`Retry-After` header hold `int(retry_after)`, otherwise calls the view
function (whose result is passed in as `handler`). -/
def rate_limit (rl : InMemoryRateLimiter) (now : ℚ) (client_ip : String)
    (handler : α) : InMemoryRateLimiter × RlResult α :=
  let r := is_allowed rl now client_ip
  if r.2.1 then
    (r.1, RlResult.ok handler)
  else
    let ra := pyInt ((r.2.2).getD 0)
    (r.1, RlResult.limited
      ("Rate limit exceeded. Try again in " ++ toString ra ++ " seconds.")
      429 ra)

/-- Limiter states reachable from a freshly constructed
`InMemoryRateLimiter(calls, period)` (empty store) by any sequence of
`is_allowed` calls at arbitrary times and keys. -/
inductive RlReachable (calls : ℕ) (period : ℚ) : InMemoryRateLimiter → Prop where
  | init : RlReachable calls period ⟨calls, period, fun _ => none⟩
  | step {rl : InMemoryRateLimiter} (now : ℚ) (key : String) :
      RlReachable calls period rl →
      RlReachable calls period (is_allowed rl now key).1

/-- Folding a sequence of `is_allowed` calls for one key through the limiter,
one call per listed time, collecting the returned `(allowed, retry_after)`
pairs in order. -/
def runCalls (rl : InMemoryRateLimiter) (key : String) :
    List ℚ → InMemoryRateLimiter × List (Bool × Option ℚ)
  | [] => (rl, [])
  | t :: ts =>
      let r := is_allowed rl t key
      let rest := runCalls r.1 key ts
      (rest.1, r.2 :: rest.2)

/-- A breaker of threshold 3 and cooldown 30 that has just tripped at time 0. -/
def cbOpen : CircuitBreaker :=
  { name := "svc", failure_threshold := 3, recovery_timeout := 30,
    state := BState.OPEN, failure_count := 3, last_failure_time := some 0 }

/-- A breaker driven from construction into HALF_OPEN: one classified failure
at time 0 trips it (threshold 1), then a trial at time 1 ends in an
unclassified failure, leaving it HALF_OPEN. -/
def cbHalf : CircuitBreaker :=
  (execute
    (execute (CircuitBreaker.init "dep" 1 1) 0
      (Outcome.classifiedFailure : Outcome Unit)).1
    1 (Outcome.unclassifiedFailure : Outcome Unit)).1

/-- A breaker of threshold 1 tripped by a single classified failure at time 0. -/
def cbTripped : CircuitBreaker :=
  (execute (CircuitBreaker.init "users" 1 5) 0
    (Outcome.classifiedFailure : Outcome Unit)).1

/-- A fresh limiter admitting 1 call per 10-second window. -/
def rlEx1 : InMemoryRateLimiter :=
  { calls := 1, period := 10, store := fun _ => none }

/-- A limiter of 1 call per 30 seconds whose key "c" has an exhausted window
that started at time 0. -/
def rl6 : InMemoryRateLimiter :=
  { calls := 1, period := 30,
    store := fun k => if k = "c" then some (0, 1) else none }

/-- A limiter of 2 calls per 10 seconds whose key "a" has an exhausted window
that started at time 0. -/
def rl7 : InMemoryRateLimiter :=
  { calls := 2, period := 10,
    store := fun k => if k = "a" then some (0, 2) else none }

theorem invokeOp_inv {α : Type} (b : CircuitBreaker) (now : ℚ) (op : Outcome α)
    (h : BreakerInv b) : BreakerInv (invokeOp b now op).1 := by
  obtain ⟨n, ft, rt, st, c, l⟩ := b
  cases op with
  | success v => intro hs; simp [invokeOp] at hs
  | classifiedFailure =>
      intro hs
      by_cases hft : ft ≤ c + 1
      · simp only [invokeOp, if_pos hft]
        exact ⟨⟨now, rfl⟩, hft⟩
      · simp only [invokeOp, if_neg hft] at hs ⊢
        simp only [BreakerInv] at h
        rcases h hs with ⟨_, hc⟩
        exact ⟨⟨now, rfl⟩, Nat.le_succ_of_le hc⟩
  | unclassifiedFailure => exact h

theorem execute_inv {α : Type} (b : CircuitBreaker) (now : ℚ) (op : Outcome α)
    (h : BreakerInv b) : BreakerInv (execute b now op).1 := by
  obtain ⟨n, ft, rt, st, c, l⟩ := b
  cases st with
  | OPEN =>
      cases l with
      | none => exact h
      | some lft =>
          by_cases hc : now - lft < rt
          · simpa [execute, hc] using h
          · simp only [execute, if_neg hc]
            apply invokeOp_inv
            intro _
            simp only [BreakerInv] at h
            exact h (by simp)
  | CLOSED => exact invokeOp_inv _ now op h
  | HALF_OPEN => exact invokeOp_inv _ now op h

theorem reachable_inv {b : CircuitBreaker} (h : Reachable b) : BreakerInv b := by
  induction h with
  | init name ft rt => intro hs; simp [CircuitBreaker.init] at hs
  | step now op _ ih => exact execute_inv _ now op ih

theorem invokeOp_no_assert {α : Type} (b : CircuitBreaker) (now : ℚ) (op : Outcome α) :
    (invokeOp b now op).2.1 ≠ ExecOutcome.assertionError := by
  cases op <;> simp [invokeOp]

theorem Store.set_eq_self (s : Store) (key : String) (v : ℚ × ℕ)
    (h : s key = some v) : s.set key v = s := by
  funext k
  by_cases hk : k = key
  · subst hk; simp [Store.set, h]
  · simp [Store.set, hk]

theorem Store.set_get_self (s : Store) (key : String) (v : ℚ × ℕ) :
    s.set key v key = some v := by
  simp [Store.set]

theorem Store.set_set (s : Store) (key : String) (v w : ℚ × ℕ) :
    (s.set key v).set key w = s.set key w := by
  funext k
  by_cases hk : k = key <;> simp [Store.set, hk]

theorem is_allowed_other_key (rl : InMemoryRateLimiter) (now : ℚ)
    (key k : String) (hk : k ≠ key) :
    (is_allowed rl now key).1.store k = rl.store k := by
  obtain ⟨cs, pd, st⟩ := rl
  simp only [is_allowed]
  split <;> split <;> simp [Store.set, hk]

theorem is_allowed_config (rl : InMemoryRateLimiter) (now : ℚ) (key : String) :
    (is_allowed rl now key).1.calls = rl.calls ∧
    (is_allowed rl now key).1.period = rl.period := by
  obtain ⟨cs, pd, st⟩ := rl
  simp only [is_allowed]
  split <;> split <;> exact ⟨rfl, rfl⟩

theorem runCalls_append (rl : InMemoryRateLimiter) (key : String)
    (l1 l2 : List ℚ) :
    runCalls rl key (l1 ++ l2) =
      ((runCalls (runCalls rl key l1).1 key l2).1,
       (runCalls rl key l1).2 ++ (runCalls (runCalls rl key l1).1 key l2).2) := by
  induction l1 generalizing rl with
  | nil => simp [runCalls]
  | cons t ts ih => simp [runCalls, ih]

theorem is_allowed_admit (calls : ℕ) (period t0 t : ℚ) (key : String)
    (store : Store) (c : ℕ)
    (hstore : store key = some (t0, c))
    (ht : t - t0 < period)
    (hc : c < calls) :
    is_allowed ⟨calls, period, store⟩ t key =
      (⟨calls, period, store.set key (t0, c + 1)⟩, true, none) := by
  have h1 : ¬ (period ≤ t - t0) := not_le.mpr ht
  have h2 : ¬ (calls ≤ c) := not_le.mpr hc
  simp only [is_allowed, hstore, Option.getD_some, if_neg h1, if_neg h2]

theorem runCalls_admit (calls : ℕ) (period t0 : ℚ) (key : String)
    (ts : List ℚ) (store : Store) (c : ℕ)
    (hstore : store key = some (t0, c))
    (hts : ∀ t ∈ ts, t - t0 < period)
    (hcount : c + ts.length ≤ calls) :
    runCalls ⟨calls, period, store⟩ key ts =
      (⟨calls, period, store.set key (t0, c + ts.length)⟩,
       List.replicate ts.length (true, none)) := by
  induction ts generalizing store c with
  | nil =>
      simp only [runCalls, List.length_nil, Nat.add_zero, List.replicate]
      rw [Store.set_eq_self store key (t0, c) hstore]
  | cons t ts ih =>
      have hstep := is_allowed_admit calls period t0 t key store c hstore
        (hts t (by simp)) (by simp only [List.length_cons] at hcount; omega)
      have hrest := ih (store.set key (t0, c + 1)) (c + 1)
        (Store.set_get_self store key (t0, c + 1))
        (fun x hx => hts x (by simp [hx]))
        (by simp only [List.length_cons] at hcount; omega)
      simp only [runCalls, hstep, hrest, List.length_cons, List.replicate_succ]
      rw [Store.set_set]
      have : c + 1 + ts.length = c + (ts.length + 1) := by omega
      rw [this]

/-- Claim C1: while the breaker is CLOSED (failure count below the
threshold), a streak of classified failures leaves the count at its old
value plus the streak length, and the breaker ends OPEN precisely when that
sum reaches `failure_threshold`, staying CLOSED below it — so the
transition to OPEN happens exactly on the call where the count first
reaches the threshold, never earlier and never later. -/
theorem closed_streak_opens_exactly_at_threshold
    (b : CircuitBreaker) (ts : List ℚ)
    (h1 : b.state = BState.CLOSED)
    (h2 : b.failure_count + ts.length ≤ b.failure_threshold)
    (h3 : b.failure_count < b.failure_threshold) :
    (failStreak b ts).failure_count = b.failure_count + ts.length ∧
    ((failStreak b ts).state = BState.OPEN ↔
      b.failure_count + ts.length = b.failure_threshold) ∧
    ((failStreak b ts).state = BState.CLOSED ↔
      b.failure_count + ts.length < b.failure_threshold) := by
  induction ts generalizing b with
  | nil =>
      refine ⟨by simp [failStreak], ?_, ?_⟩
      · simp only [failStreak, List.length_nil, Nat.add_zero, h1]
        constructor
        · intro h; exact absurd h (by simp)
        · intro h; exact absurd h (Nat.ne_of_lt h3)
      · simp only [failStreak, List.length_nil, Nat.add_zero, h1]
        exact ⟨fun _ => h3, fun _ => trivial⟩
  | cons t ts ih =>
      obtain ⟨n, ft, rt, st, c, l⟩ := b
      cases st with
      | OPEN => simp at h1
      | HALF_OPEN => simp at h1
      | CLOSED =>
        simp only at h2 h3
        by_cases hft : ft ≤ c + 1
        · have hlen : ts.length = 0 := by
            simp only [List.length_cons] at h2; omega
          have hts : ts = [] := List.length_eq_zero.mp hlen
          subst hts
          have hcft : c + 1 = ft := by
            simp only [List.length_cons] at h2; omega
          simp only [failStreak, execute, invokeOp, if_pos hft, List.length_cons]
          refine ⟨by omega, ?_, ?_⟩
          · constructor
            · intro _; omega
            · intro _; exact trivial
          · constructor
            · intro h; exact absurd h (by simp)
            · intro h; omega
        · have hlt : c + 1 < ft := Nat.lt_of_not_le (by omega)
          have hstep :
              (execute (⟨n, ft, rt, BState.CLOSED, c, l⟩ : CircuitBreaker) t
                (Outcome.classifiedFailure : Outcome Unit)).1 =
              ⟨n, ft, rt, BState.CLOSED, c + 1, some t⟩ := by
            simp [execute, invokeOp, if_neg hft]
          have ih2 := ih ⟨n, ft, rt, BState.CLOSED, c + 1, some t⟩ rfl
            (by simp only [List.length_cons] at h2; simp only []; omega) hlt
          simp only [failStreak, hstep, List.length_cons]
          simp only [] at ih2
          have harith : c + (ts.length + 1) = c + 1 + ts.length := by omega
          rw [harith]
          exact ih2

theorem closed_streak_opens_exactly_at_threshold_witness :
    (CircuitBreaker.init "svc" 2 30).failure_count < (CircuitBreaker.init "svc" 2 30).failure_threshold ∧
    ((failStreak (CircuitBreaker.init "svc" 2 30) [0, 1]).state = BState.OPEN ↔
      (CircuitBreaker.init "svc" 2 30).failure_count + ([0, 1] : List ℚ).length =
        (CircuitBreaker.init "svc" 2 30).failure_threshold) :=
  ⟨by decide,
   (closed_streak_opens_exactly_at_threshold (CircuitBreaker.init "svc" 2 30)
      [0, 1] rfl (by decide) (by decide)).2.1⟩

/-- Claim C2 counterexample: the `ServiceUnavailable` error does not carry
the exact remaining cooldown.  At `cbOpen` (cooldown 30, last failure at 0)
a call at time 4.5 is rejected with the payload 25 — Python `int()` of the
remaining cooldown — while the remaining cooldown itself is 25.5. -/
theorem service_unavailable_truncated_cooldown_cex :
    (execute cbOpen (9 / 2) (Outcome.success (0 : ℕ))).2.1 =
      ExecOutcome.serviceUnavailable "svc" 25 ∧
    cbOpen.recovery_timeout - ((9 / 2 : ℚ) - 0) = 51 / 2 ∧
    ((25 : ℚ) ≠ 51 / 2) := by
  have hfl : (⌊(51 : ℚ) / 2⌋ : ℤ) = 25 := by
    rw [Int.floor_eq_iff]; norm_num
  refine ⟨?_, by norm_num [cbOpen], by norm_num⟩
  have h30 : (30 : ℚ) - (9 / 2 - 0) = 51 / 2 := by norm_num
  norm_num [cbOpen, execute, pyInt, h30, hfl]

/-- Claim C2 as amended: while OPEN with the cooldown not yet elapsed, a
guarded call returns a `ServiceUnavailable` carrying the breaker's name and
`int()` of the remaining cooldown (its floor, a non-negative whole number
of seconds, since the remaining cooldown is positive), leaves the breaker
untouched and never invokes the operation; once `recovery_timeout` has
elapsed since `last_failure_time`, the call moves the breaker to HALF_OPEN
and invokes the operation in that same call. -/
theorem open_cooldown_fast_fail_and_half_open_trial
    (b : CircuitBreaker) (lft now : ℚ)
    (h1 : b.state = BState.OPEN)
    (h2 : b.last_failure_time = some lft) :
    (now - lft < b.recovery_timeout →
      (∀ (α : Type) (op : Outcome α),
        execute b now op =
          (b, ExecOutcome.serviceUnavailable b.name
                (pyInt (b.recovery_timeout - (now - lft))), false)) ∧
      pyInt (b.recovery_timeout - (now - lft)) =
        ⌊b.recovery_timeout - (now - lft)⌋ ∧
      0 ≤ ⌊b.recovery_timeout - (now - lft)⌋) ∧
    (b.recovery_timeout ≤ now - lft →
      ∀ (α : Type) (op : Outcome α),
        execute b now op = invokeOp { b with state := BState.HALF_OPEN } now op ∧
        (execute b now op).2.2 = true) := by
  obtain ⟨n, ft, rt, st, c, l⟩ := b
  cases st with
  | CLOSED => simp at h1
  | HALF_OPEN => simp at h1
  | OPEN =>
      cases l with
      | none => simp at h2
      | some x =>
          have hx : x = lft := by simpa using h2
          subst hx
          constructor
          · intro hc
            simp only at hc
            have hpos : (0 : ℚ) ≤ rt - (now - x) := by linarith
            refine ⟨?_, ?_, ?_⟩
            · intro α op
              simp [execute, if_pos hc]
            · simp only [pyInt, if_pos hpos]
            · exact Int.floor_nonneg.mpr hpos
          · intro hc α op
            constructor
            · simp [execute, if_neg (not_lt.mpr hc)]
            · simp only [execute, if_neg (not_lt.mpr hc)]
              cases op <;> simp [invokeOp]

theorem open_cooldown_fast_fail_and_half_open_trial_witness :
    cbOpen.state = BState.OPEN ∧ cbOpen.last_failure_time = some 0 ∧
    (10 : ℚ) - 0 < cbOpen.recovery_timeout ∧
    execute cbOpen 10 (Outcome.success (0 : ℕ)) =
      (cbOpen, ExecOutcome.serviceUnavailable cbOpen.name
        (pyInt (cbOpen.recovery_timeout - ((10 : ℚ) - 0))), false) :=
  ⟨rfl, rfl, by norm_num [cbOpen],
   ((open_cooldown_fast_fail_and_half_open_trial cbOpen 0 10 rfl rfl).1
     (by norm_num [cbOpen])).1 ℕ (Outcome.success 0)⟩

/-- Claim C3: in HALF_OPEN (for any breaker reachable from construction), a
single successful invocation resets the failure count to zero, clears
`last_failure_time` and moves the breaker to CLOSED; a single classified
failure moves it straight back to OPEN, with no need to re-accumulate
`failure_threshold` consecutive failures. -/
theorem half_open_single_call
    (b : CircuitBreaker) (now : ℚ)
    (hr : Reachable b)
    (hs : b.state = BState.HALF_OPEN) :
    (∀ (α : Type) (v : α),
      execute b now (Outcome.success v) =
        ({ b with
            state := BState.CLOSED
            failure_count := 0
            last_failure_time := none },
         ExecOutcome.result v, true)) ∧
    (∀ (α : Type),
      execute b now (Outcome.classifiedFailure : Outcome α) =
        ({ b with
            state := BState.OPEN
            failure_count := b.failure_count + 1
            last_failure_time := some now },
         ExecOutcome.classifiedError, true)) := by
  obtain ⟨-, hcount⟩ := reachable_inv hr (by rw [hs]; simp)
  obtain ⟨n, ft, rt, st, c, l⟩ := b
  cases st with
  | CLOSED => simp at hs
  | OPEN => simp at hs
  | HALF_OPEN =>
      constructor
      · intro α v; simp [execute, invokeOp]
      · intro α
        simp only at hcount
        have hft : ft ≤ c + 1 := Nat.le_succ_of_le hcount
        simp [execute, invokeOp, if_pos hft]

theorem half_open_single_call_witness :
    cbHalf.state = BState.HALF_OPEN ∧
    execute cbHalf 2 (Outcome.success (7 : ℕ)) =
      ({ cbHalf with
          state := BState.CLOSED
          failure_count := 0
          last_failure_time := none },
       ExecOutcome.result 7, true) := by
  have hr : Reachable cbHalf :=
    Reachable.step 1 (Outcome.unclassifiedFailure : Outcome Unit)
      (Reachable.step 0 (Outcome.classifiedFailure : Outcome Unit)
        (Reachable.init "dep" 1 1))
  have hs : cbHalf.state = BState.HALF_OPEN := by
    norm_num [cbHalf, CircuitBreaker.init, execute, invokeOp]
  exact ⟨hs, (half_open_single_call cbHalf 2 hr hs).1 ℕ 7⟩

/-- Claim C4 counterexample: an unclassified failure is not always free of
state changes.  With the tripped breaker `cbOpen` (cooldown 30, last failure
at 0), a call at time 30 whose operation raises an unclassified failure
moves the breaker from OPEN to HALF_OPEN. -/
theorem unclassified_failure_changes_state_cex :
    cbOpen.state = BState.OPEN ∧
    (execute cbOpen 30 (Outcome.unclassifiedFailure : Outcome Unit)).1.state =
      BState.HALF_OPEN := by
  constructor
  · rfl
  · norm_num [cbOpen, execute, invokeOp]

/-- Claim C4 as amended: an unclassified failure always propagates with the
failure count and `last_failure_time` untouched, and leaves the state
unchanged whenever the breaker is not OPEN; but a call arriving in OPEN
with the cooldown elapsed still performs the OPEN-to-HALF_OPEN transition
before invoking the operation, and the breaker stays HALF_OPEN when that
trial raises an unclassified failure. -/
theorem unclassified_failure_frame
    (b : CircuitBreaker) (now : ℚ) (α : Type) :
    ((execute b now (Outcome.unclassifiedFailure : Outcome α)).1.failure_count =
        b.failure_count ∧
     (execute b now (Outcome.unclassifiedFailure : Outcome α)).1.last_failure_time =
        b.last_failure_time) ∧
    (b.state ≠ BState.OPEN →
      execute b now (Outcome.unclassifiedFailure : Outcome α) =
        (b, ExecOutcome.unclassifiedError, true)) ∧
    (∀ lft, b.state = BState.OPEN → b.last_failure_time = some lft →
      b.recovery_timeout ≤ now - lft →
      execute b now (Outcome.unclassifiedFailure : Outcome α) =
        ({ b with state := BState.HALF_OPEN },
         ExecOutcome.unclassifiedError, true)) := by
  obtain ⟨n, ft, rt, st, c, l⟩ := b
  cases st with
  | CLOSED =>
      exact ⟨⟨rfl, rfl⟩, fun _ => rfl, fun lft h => by simp at h⟩
  | HALF_OPEN =>
      exact ⟨⟨rfl, rfl⟩, fun _ => rfl, fun lft h => by simp at h⟩
  | OPEN =>
      cases l with
      | none =>
          exact ⟨⟨rfl, rfl⟩, fun h => absurd rfl h, fun lft _ hl => by simp at hl⟩
      | some x =>
          by_cases hc : now - x < rt
          · refine ⟨?_, fun h => absurd rfl h, ?_⟩
            · constructor
              · simp [execute, if_pos hc]
              · simp [execute, if_pos hc]
            · intro lft _ hl hc2
              have hx : x = lft := by simpa using hl
              subst hx
              exact absurd hc (not_lt.mpr hc2)
          · refine ⟨?_, fun h => absurd rfl h, ?_⟩
            · constructor
              · simp [execute, invokeOp, if_neg hc]
              · simp [execute, invokeOp, if_neg hc]
            · intro lft _ hl hc2
              have hx : x = lft := by simpa using hl
              subst hx
              simp [execute, invokeOp, if_neg hc]

theorem unclassified_failure_frame_witness :
    (CircuitBreaker.init "w" 3 30).state ≠ BState.OPEN ∧
    execute (CircuitBreaker.init "w" 3 30) 5
        (Outcome.unclassifiedFailure : Outcome ℕ) =
      (CircuitBreaker.init "w" 3 30, ExecOutcome.unclassifiedError, true) :=
  ⟨by decide,
   (unclassified_failure_frame (CircuitBreaker.init "w" 3 30) 5 ℕ).2.1 (by decide)⟩

/-- Claim C10: every breaker reachable from construction satisfies the
invariant — in OPEN or HALF_OPEN, `last_failure_time` is set and the failure
count has reached the threshold — so the `assert` in the OPEN branch never
fails; moreover every guarded call preserves the invariant. -/
theorem breaker_invariant_reachable
    (b : CircuitBreaker) (h : Reachable b) :
    ((b.state = BState.OPEN ∨ b.state = BState.HALF_OPEN) →
      (∃ t, b.last_failure_time = some t) ∧
      b.failure_threshold ≤ b.failure_count) ∧
    (∀ (α : Type) (now : ℚ) (op : Outcome α),
      (execute b now op).2.1 ≠ ExecOutcome.assertionError) ∧
    (∀ (b2 : CircuitBreaker) (now : ℚ) (α : Type) (op : Outcome α),
      BreakerInv b2 → BreakerInv (execute b2 now op).1) := by
  have hinv := reachable_inv h
  refine ⟨?_, ?_, fun b2 now α op h2 => execute_inv b2 now op h2⟩
  · intro hs
    apply hinv
    rcases hs with h1 | h1 <;> simp [h1]
  · intro α now op
    obtain ⟨n, ft, rt, st, c, l⟩ := b
    cases st with
    | CLOSED => exact invokeOp_no_assert _ now op
    | HALF_OPEN => exact invokeOp_no_assert _ now op
    | OPEN =>
        obtain ⟨⟨t, hl⟩, -⟩ := hinv (by simp)
        simp only at hl
        subst hl
        by_cases hc : now - t < rt
        · simp [execute, if_pos hc]
        · simp only [execute, if_neg hc]
          exact invokeOp_no_assert _ now op

theorem breaker_invariant_reachable_witness :
    (∃ t, cbTripped.last_failure_time = some t) ∧
    cbTripped.failure_threshold ≤ cbTripped.failure_count :=
  (breaker_invariant_reachable cbTripped
      (Reachable.step 0 (Outcome.classifiedFailure : Outcome Unit)
        (Reachable.init "users" 1 5))).1
    (Or.inl (by decide))

theorem is_allowed_new_count (rl : InMemoryRateLimiter) (now : ℚ) (key : String)
    (w : ℚ) (c : ℕ)
    (hk : (is_allowed rl now key).1.store key = some (w, c)) :
    c ≤ rl.calls ∨ ∃ w0, rl.store key = some (w0, c) := by
  obtain ⟨cs, pd, st⟩ := rl
  simp only [is_allowed] at hk ⊢
  rcases hwc : (if pd ≤ now - ((st key).getD (now, 0)).1
      then ((now : ℚ), (0 : ℕ)) else (st key).getD (now, 0)) with ⟨wcw, wcc⟩
  rw [hwc] at hk
  split at hk
  case isTrue hcount =>
      simp only [Store.set_get_self, Option.some.injEq, Prod.mk.injEq] at hk
      obtain ⟨-, hc2⟩ := hk
      subst hc2
      split at hwc
      · left
        simp only [Prod.mk.injEq] at hwc
        omega
      · rcases h0 : st key with _ | ⟨w0, c0⟩
        · rw [h0] at hwc
          simp only [Option.getD_none, Prod.mk.injEq] at hwc
          left; omega
        · rw [h0] at hwc
          simp only [Option.getD_some, Prod.mk.injEq] at hwc
          right
          exact ⟨w0, by rw [hwc.2]⟩
  case isFalse hcount =>
      simp only [Store.set_get_self, Option.some.injEq, Prod.mk.injEq] at hk
      obtain ⟨-, hc2⟩ := hk
      left
      omega

theorem rlReachable_calls {calls : ℕ} {period : ℚ} {rl : InMemoryRateLimiter}
    (h : RlReachable calls period rl) : rl.calls = calls := by
  induction h with
  | init => rfl
  | step now key hprev ih =>
      rw [(is_allowed_config _ now key).1]
      exact ih

theorem rlReachable_count_le {calls : ℕ} {period : ℚ} {rl : InMemoryRateLimiter}
    (h : RlReachable calls period rl) :
    ∀ k w c, rl.store k = some (w, c) → c ≤ calls := by
  induction h with
  | init => intro k w c hk; exact absurd hk (by simp)
  | step now key hprev ih =>
      intro k w c hk
      by_cases hkk : k = key
      · subst hkk
        rcases is_allowed_new_count _ now k w c hk with h1 | ⟨w0, h0⟩
        · rwa [rlReachable_calls hprev] at h1
        · exact ih k w0 c h0
      · rw [is_allowed_other_key _ now key k hkk] at hk
        exact ih k w c hk

/-- Claim C7: for a key with a stored window, a call arriving once a full
period has elapsed since the window start (boundary included) is admitted
and starts a fresh window: the key's entry afterwards is `(now, 1)`. -/
theorem window_reset_at_period_boundary
    (rl : InMemoryRateLimiter) (now w : ℚ) (c : ℕ) (key : String)
    (hc : 0 < rl.calls)
    (hs : rl.store key = some (w, c))
    (ht : rl.period ≤ now - w) :
    is_allowed rl now key =
      ({ rl with store := rl.store.set key (now, 1) }, true, none) := by
  obtain ⟨cs, pd, st⟩ := rl
  simp only at hc hs ht
  have h2 : ¬ (cs ≤ 0) := by omega
  simp only [is_allowed, hs, Option.getD_some, if_pos ht, if_neg h2]

theorem window_reset_at_period_boundary_witness :
    0 < rl7.calls ∧ rl7.store "a" = some (0, 2) ∧ rl7.period ≤ (10 : ℚ) - 0 ∧
    is_allowed rl7 10 "a" =
      ({ rl7 with store := rl7.store.set "a" (10, 1) }, true, none) :=
  ⟨by decide, rfl, by norm_num [rl7],
   window_reset_at_period_boundary rl7 10 0 2 "a" (by decide) rfl
     (by norm_num [rl7])⟩

/-- Claim C8: with positive `calls`, a rejected `is_allowed` call leaves the
store exactly as it was (the count is not incremented on rejection), and on
every limiter reachable from construction, every stored count is at most
`calls`. -/
theorem rejection_frame_and_count_bound (calls : ℕ) (period : ℚ)
    (hc : 0 < calls) :
    (∀ (rl rl2 : InMemoryRateLimiter) (now : ℚ) (key : String) (ra : Option ℚ),
        rl.calls = calls →
        is_allowed rl now key = (rl2, false, ra) → rl2.store = rl.store) ∧
    (∀ rl, RlReachable calls period rl →
        ∀ k w c, rl.store k = some (w, c) → c ≤ calls) := by
  constructor
  · rintro ⟨cs, pd, st⟩ rl2 now key ra hcs h
    have hcs2 : cs = calls := hcs
    subst hcs2
    rcases h0 : st key with _ | ⟨w, c⟩
    · have h2 : ¬ (cs ≤ 0) := by omega
      simp [is_allowed, h0, h2] at h
    · by_cases hreset : pd ≤ now - w
      · have h2 : ¬ (cs ≤ 0) := by omega
        simp [is_allowed, h0, hreset, h2] at h
      · by_cases hcount : cs ≤ c
        · simp only [is_allowed, h0, Option.getD_some, if_neg hreset,
            if_pos hcount, Prod.mk.injEq] at h
          obtain ⟨hrl2, -, -⟩ := h
          rw [← hrl2]
          exact Store.set_eq_self st key (w, c) h0
        · simp [is_allowed, h0, hreset, hcount] at h
  · intro rl hreach
    exact rlReachable_count_le hreach

theorem rejection_frame_and_count_bound_witness :
    0 < 1 ∧
    (∀ rl, RlReachable 1 10 rl → ∀ k w c, rl.store k = some (w, c) → c ≤ 1) :=
  ⟨by decide, (rejection_frame_and_count_bound 1 10 (by decide)).2⟩

/-- Claim C9: keys are fully independent — a call for one key leaves every
other key's entry unchanged, and the `(allowed, retry_after)` decision for a
key depends only on that key's entry, the configuration and the current
time: two limiters agreeing on those yield the same decision. -/
theorem key_independence :
    (∀ (rl : InMemoryRateLimiter) (now : ℚ) (k1 k2 : String), k2 ≠ k1 →
        (is_allowed rl now k1).1.store k2 = rl.store k2) ∧
    (∀ (rl1 rl2 : InMemoryRateLimiter) (now : ℚ) (k1 : String),
        rl1.calls = rl2.calls → rl1.period = rl2.period →
        rl1.store k1 = rl2.store k1 →
        (is_allowed rl1 now k1).2 = (is_allowed rl2 now k1).2) := by
  constructor
  · intro rl now k1 k2 hk
    exact is_allowed_other_key rl now k1 k2 hk
  · rintro ⟨cs1, pd1, st1⟩ ⟨cs2, pd2, st2⟩ now k1 hcalls hperiod hst
    simp only at hcalls hperiod hst
    subst hcalls
    subst hperiod
    simp only [is_allowed, hst]
    split <;> split <;> rfl

theorem key_independence_witness :
    ("b" : String) ≠ "a" ∧
    (is_allowed rlEx1 0 "a").1.store "b" = rlEx1.store "b" :=
  ⟨by decide, key_independence.1 rlEx1 0 "a" "b" (by decide)⟩

/-- Claim C5: with `calls = N > 0` and a fresh key, `N + 1` calls all landing
within one period of the window start (the first call's time `t0`) yield `N`
admissions `(true, none)` followed by one rejection `(false, retry_after)`
with `0 < retry_after ≤ period`. -/
theorem first_n_allowed_then_rejected
    (N : ℕ) (rl : InMemoryRateLimiter) (key : String) (t0 tl : ℚ)
    (ts : List ℚ)
    (hN : 0 < N) (hcalls : rl.calls = N) (hperiod : 0 < rl.period)
    (habsent : rl.store key = none)
    (hlen : ts.length = N - 1)
    (hts : ∀ t ∈ ts, t - t0 < rl.period)
    (htl0 : t0 ≤ tl) (htl : tl - t0 < rl.period) :
    (runCalls rl key (t0 :: (ts ++ [tl]))).2 =
      List.replicate N (true, none) ++
        [(false, some (rl.period - (tl - t0)))] ∧
    0 < rl.period - (tl - t0) ∧ rl.period - (tl - t0) ≤ rl.period := by
  obtain ⟨cs, pd, st⟩ := rl
  simp only at hcalls hperiod habsent hts htl htl0 hlen ⊢
  subst hcalls
  have hfirst : is_allowed (⟨cs, pd, st⟩ : InMemoryRateLimiter) t0 key =
      (⟨cs, pd, st.set key (t0, 1)⟩, true, none) := by
    have h1 : ¬ (pd ≤ t0 - t0) := by rw [sub_self]; exact not_le.mpr hperiod
    have h2 : ¬ (cs ≤ 0) := by omega
    simp only [is_allowed, habsent, Option.getD_none, if_neg h1, if_neg h2]
  have hmid := runCalls_admit cs pd t0 key ts (st.set key (t0, 1)) 1
    (Store.set_get_self st key (t0, 1)) hts (by omega)
  have hlast : is_allowed
      (⟨cs, pd, (st.set key (t0, 1)).set key (t0, 1 + ts.length)⟩ :
        InMemoryRateLimiter) tl key =
      (⟨cs, pd, ((st.set key (t0, 1)).set key (t0, 1 + ts.length)).set key
          (t0, 1 + ts.length)⟩,
       false, some (pd - (tl - t0))) := by
    have h1 : ¬ (pd ≤ tl - t0) := not_le.mpr htl
    have h2 : cs ≤ 1 + ts.length := by omega
    simp only [is_allowed, Store.set_get_self, Option.getD_some, if_neg h1,
      if_pos h2]
    rw [max_eq_right (by linarith)]
  refine ⟨?_, by linarith, by linarith⟩
  have hNsucc : cs = ts.length + 1 := by omega
  simp only [runCalls, hfirst, runCalls_append, hmid, hlast]
  rw [hNsucc, List.replicate_succ]
  simp [runCalls]

theorem first_n_allowed_then_rejected_witness :
    (0 : ℚ) < rlEx1.period ∧
    (runCalls rlEx1 "k" ((0 : ℚ) :: ([] ++ [(5 : ℚ)]))).2 =
      List.replicate 1 (true, none) ++
        [(false, some (rlEx1.period - ((5 : ℚ) - 0)))] :=
  ⟨by norm_num [rlEx1],
   (first_n_allowed_then_rejected 1 rlEx1 "k" 0 5 [] (by decide) rfl
      (by norm_num [rlEx1]) rfl (by decide) (by simp)
      (by norm_num) (by norm_num [rlEx1])).1⟩

/-- Claim C6 counterexample: the `Retry-After` header is not the ceiling of
the retry hint.  With `rl6` (1 call per 30 s, key "c" exhausted since time
0), a rejected call at time 4.5 has `retry_after = 25.5`; the response
carries header value 25 (Python `int()` truncation) while the ceiling is
26. -/
theorem retry_after_header_ceil_cex :
    (is_allowed rl6 (9 / 2) "c").2 = (false, some ((51 : ℚ) / 2)) ∧
    (rate_limit rl6 (9 / 2) "c" (0 : ℕ)).2 =
      RlResult.limited
        ("Rate limit exceeded. Try again in " ++ toString (25 : ℤ) ++
          " seconds.")
        429 25 ∧
    (⌈(51 : ℚ) / 2⌉ : ℤ) = 26 := by
  have hfloor : (⌊(51 : ℚ) / 2⌋ : ℤ) = 25 := by
    rw [Int.floor_eq_iff]; norm_num
  have hstep : is_allowed rl6 (9 / 2) "c" =
      (⟨1, 30, rl6.store.set "c" (0, 1)⟩, false, some ((51 : ℚ) / 2)) := by
    have h0 : rl6.store "c" = some (0, 1) := rfl
    have h1 : ¬ ((30 : ℚ) ≤ 9 / 2 - 0) := by norm_num
    have h2 : (1 : ℕ) ≤ 1 := le_refl 1
    have hrl : rl6 = (⟨1, 30, rl6.store⟩ : InMemoryRateLimiter) := rfl
    rw [hrl]
    simp only [is_allowed, h0, Option.getD_some, if_neg h1, if_pos h2]
    rw [max_eq_right (by norm_num)]
    norm_num
  refine ⟨by rw [hstep], ?_, ?_⟩
  · have hnonneg : (0 : ℚ) ≤ 51 / 2 := by norm_num
    simp only [rate_limit, hstep, Option.getD_some, pyInt, if_pos hnonneg,
      hfloor]
    rfl
  · rw [Int.ceil_eq_iff]; norm_num

theorem is_allowed_reject_nonneg (rl : InMemoryRateLimiter) (now : ℚ)
    (key : String) (rl2 : InMemoryRateLimiter) (ra : ℚ)
    (h : is_allowed rl now key = (rl2, false, some ra)) : 0 ≤ ra := by
  obtain ⟨cs, pd, st⟩ := rl
  simp only [is_allowed] at h
  by_cases hcond : cs ≤ (if pd ≤ now - ((st key).getD (now, 0)).1
      then ((now : ℚ), (0 : ℕ)) else (st key).getD (now, 0)).2
  · rw [if_pos hcond] at h
    simp only [Prod.mk.injEq, Option.some.injEq] at h
    obtain ⟨-, -, h3⟩ := h
    rw [← h3]
    exact le_max_left 0 _
  · rw [if_neg hcond] at h
    simp at h

/-- Claim C6 as amended: on every rejection the wrapper returns the limiter
state produced by `is_allowed` together with a response of HTTP status 429
whose `Retry-After` header and body carry `int(retry_after)` — the retry
hint truncated, i.e. its floor (the hint is never negative), not its
ceiling. -/
theorem rate_limit_rejection_429_floor
    (rl rl2 : InMemoryRateLimiter) (now ra : ℚ) (key : String)
    (α : Type) (handler : α)
    (h : is_allowed rl now key = (rl2, false, some ra)) :
    0 ≤ ra ∧
    rate_limit rl now key handler =
      (rl2, RlResult.limited
        ("Rate limit exceeded. Try again in " ++ toString (⌊ra⌋ : ℤ) ++
          " seconds.")
        429 ⌊ra⌋) := by
  have hra : 0 ≤ ra := is_allowed_reject_nonneg rl now key rl2 ra h
  refine ⟨hra, ?_⟩
  simp only [rate_limit, h, Option.getD_some, pyInt, if_pos hra]
  rfl

theorem rate_limit_rejection_429_floor_witness :
    is_allowed rl6 (9 / 2) "c" =
      ((is_allowed rl6 (9 / 2) "c").1, false, some ((51 : ℚ) / 2)) ∧
    0 ≤ ((51 : ℚ) / 2) :=
  ⟨by
    have h0 : rl6.store "c" = some (0, 1) := rfl
    have h1 : ¬ ((30 : ℚ) ≤ 9 / 2 - 0) := by norm_num
    have h2 : (1 : ℕ) ≤ 1 := le_refl 1
    have hrl : rl6 = (⟨1, 30, rl6.store⟩ : InMemoryRateLimiter) := rfl
    rw [hrl]
    simp only [is_allowed, h0, Option.getD_some, if_neg h1, if_pos h2]
    rw [max_eq_right (by norm_num)]
    norm_num,
   (rate_limit_rejection_429_floor rl6 (is_allowed rl6 (9 / 2) "c").1
      (9 / 2) ((51 : ℚ) / 2) "c" ℕ 0
      (by
        have h0 : rl6.store "c" = some (0, 1) := rfl
        have h1 : ¬ ((30 : ℚ) ≤ 9 / 2 - 0) := by norm_num
        have h2 : (1 : ℕ) ≤ 1 := le_refl 1
        have hrl : rl6 = (⟨1, 30, rl6.store⟩ : InMemoryRateLimiter) := rfl
        rw [hrl]
        simp only [is_allowed, h0, Option.getD_some, if_neg h1, if_pos h2]
        rw [max_eq_right (by norm_num)]
        norm_num)).1⟩

end Srms
